import Mathlib

/-!
Shallow embedding of `perf-test.js`, a load-test script for a group-membership
HTTP service.  Outbound HTTP calls are modelled by explicit environment
functions (oracles): the member-listing API is a function from a page number
and a page size to the list of member records returned, and the bulk-add API
is a function from the chunk index to the response for that chunk.  The JS
`while` loop of `getNMembers` is embedded with an explicit fuel parameter, as
is the slice-based chunking; everything is structurally recursive so that all
definitions evaluate by `decide` / `rfl`.
-/

set_option maxRecDepth 100000

namespace PerfTest

/-!
## Directory reader: `getMembers` / `getNMembers` (perf-test.js lines 28-65)

`getMembers(page, pageSize, accessToken)` performs one paginated request and
returns the page's records.  It is modelled by the oracle
`fetch : Nat → Nat → List α` (page, perPage ↦ returned records); the access
token and the `fields: userId` parameter do not affect control flow.

`getNMembers(n, accessToken)` runs

    const maxPageSize = 100
    const members = []
    let page = 1
    while (members.length < n) {
      const diff = n - members.length
      if (diff <= maxPageSize) { members.push(...await getMembers(page, diff, accessToken)) }
      else { members.push(...await getMembers(page, maxPageSize, accessToken)); page++ }
      await sleep(100)
    }
    return members

The loop is embedded with fuel (`none` = the loop has not finished within
`fuel` iterations).  The second component of the result is the trace of
page requests issued, as (page, perPage) pairs, in order.
-/

def getNLoop (fetch : Nat → Nat → List α) (n : Nat) :
    Nat → Nat → List α → Option (List α) × List (Nat × Nat)
  | 0, _, _ => (none, [])
  | fuel + 1, page, members =>
    if members.length < n then
      let diff := n - members.length
      if diff ≤ 100 then
        let r := getNLoop fetch n fuel page (members ++ fetch page diff)
        (r.1, (page, diff) :: r.2)
      else
        let r := getNLoop fetch n fuel (page + 1) (members ++ fetch page 100)
        (r.1, (page, 100) :: r.2)
    else
      (some members, [])

/-- `getNMembers n`: the loop starts at page 1 with an empty accumulator. -/
def getNMembers (fetch : Nat → Nat → List α) (n fuel : Nat) :
    Option (List α) × List (Nat × Nat) :=
  getNLoop fetch n fuel 1 []

/-!
## Bulk membership adder: `addMembers` (perf-test.js lines 152-181)

    async function addMembers (groupId, members, accessToken) {
      const chunkSize = 100
      const result = []
      for (let i = 0; i < members.length; i += chunkSize) {
        const chunk = members.slice(i, i + chunkSize)
        const st = new Date().getTime()
        const resp = await axios.post(..., { members: chunk }, ...)
        if (resp.status !== 200) { throw ... }
        const et = new Date().getTime()
        if (et - st > 30000) { throw ... }
        if (resp.data.members.some(member => member.status === 'failed')) {
          throw new Error(`...: ${resp.data.members.filter(member => member.status === 'failed')}`)
        }
        result.push(...resp.data.members)
      }
      return result
    }

The response of the k-th chunk request is given by the oracle
`respond : Nat → ChunkResponse` (the JS loop variable is the offset
`i = 100 * k`); a response carries the HTTP status, the measured elapsed
time `et - st` in milliseconds, and the per-member results of the payload.
-/

/-- One entry of `resp.data.members`. -/
structure MemberStatus where
  memberId : String
  status : String

/-- The environment's response to one bulk-add chunk request. -/
structure ChunkResponse where
  status : Nat
  elapsed : Nat
  members : List MemberStatus

/-- The three `throw` sites of the chunk loop, in source order. -/
inductive AddMembersError where
  | badStatus : Nat → AddMembersError
  | timeLimit : Nat → AddMembersError
  | someFailed : List MemberStatus → AddMembersError

/-- `member.status === 'failed'`. -/
def isFailed (m : MemberStatus) : Bool :=
  m.status == "failed"

/-- `members.slice(i, i + 100)` chunking of the loop, driven by fuel (one unit
per chunk; `fuel = l.length` always suffices since each iteration consumes 100
elements, so the exhaustion case `[l]` is unreachable). -/
def chunksOfGo : Nat → List α → List (List α)
  | _, [] => []
  | 0, l => [l]
  | fuel + 1, x :: xs => (x :: xs).take 100 :: chunksOfGo fuel ((x :: xs).drop 100)

/-- The successive chunks `members.slice(i, i + 100)` for `i = 0, 100, 200, …`. -/
def chunksOf (l : List α) : List (List α) :=
  chunksOfGo l.length l

/-- The chunk loop.  Arguments: the remaining chunks, the index `k` of the next
chunk, the accumulated `result`.  Returns the outcome (`.error` = the loop
threw), the number of chunk requests issued, and the value of the local
variable `result` when the loop stopped (on a throw, the chunk being processed
has not been pushed). -/
def runChunks (respond : Nat → ChunkResponse) :
    List (List α) → Nat → List MemberStatus →
    Except AddMembersError (List MemberStatus) × Nat × List MemberStatus
  | [], _, acc => (.ok acc, 0, acc)
  | _ :: rest, k, acc =>
    let resp := respond k
    if resp.status ≠ 200 then
      (.error (.badStatus resp.status), 1, acc)
    else if 30000 < resp.elapsed then
      (.error (.timeLimit resp.elapsed), 1, acc)
    else if resp.members.any isFailed then
      (.error (.someFailed (resp.members.filter isFailed)), 1, acc)
    else
      let r := runChunks respond rest (k + 1) (acc ++ resp.members)
      (r.1, r.2.1 + 1, r.2.2)

/-- `addMembers groupId members accessToken` under the oracle `respond`. -/
def addMembers (respond : Nat → ChunkResponse) (members : List α) :
    Except AddMembersError (List MemberStatus) × Nat × List MemberStatus :=
  runChunks respond (chunksOf members) 0 []

/-- A response on which the loop body falls through all three `throw` checks. -/
def respOk (r : ChunkResponse) : Bool :=
  r.status == 200 && decide (r.elapsed ≤ 30000) && !(r.members.any isFailed)

/-- The error the loop body raises on a response that fails a check, honouring
the source order of the three checks. -/
def errorFor (r : ChunkResponse) : AddMembersError :=
  if r.status ≠ 200 then .badStatus r.status
  else if 30000 < r.elapsed then .timeLimit r.elapsed
  else .someFailed (r.members.filter isFailed)

/-- Concatenation, in order, of the `members` arrays of responses
`k, k+1, …, k+m-1`. -/
def respsConcat (respond : Nat → ChunkResponse) : Nat → Nat → List MemberStatus
  | _, 0 => []
  | k, m + 1 => (respond k).members ++ respsConcat respond (k + 1) m

/-!
## Script orchestration: `main` (perf-test.js lines 183-218)

    async function main () {
      if (!config.AUTH0_CLIENT_ID) { throw ... }
      if (!config.AUTH0_CLIENT_SECRET) { throw ... }
      const accessToken = await helper.getM2Mtoken()
      const members = [...INITIAL_MEMBER_SIZE random ids...]
      await groupApiHealthCheck(accessToken)
      const groupId = await createTestGroup(accessToken)   // POST, then PATCH oldId
      try {
        const resp = await addMembers(groupId, members.map(...), accessToken)
      } finally {
        await deleteTestGroup(groupId, accessToken)
      }
    }

`createTestGroup` checks the POST status, then calls `patchTestGroup` on
`resp.data.id` (which checks the PATCH status) and returns the id, so a patch
failure propagates out of `createTestGroup` before `groupId` is assigned and
before the `try`/`finally` is entered.  `deleteTestGroup` checks the DELETE
status.  (With axios a non-2xx response itself rejects the promise; either way
a non-200 status aborts the step, which is all the model needs.)

The environment `Env` fixes the presence of the two config values and the
outcome of each HTTP step; the bulk-add responses come from the `respond`
oracle and the synthetic member list is a parameter.  `mainRun` returns the
script outcome and the ordered trace of group/member API operations invoked.
-/

/-- The outbound operations of `main`, in invocation order. -/
inductive Call where
  | healthCheck : Call
  | createGroup : Call
  | patchGroup : String → Call
  | addMembersCall : String → Call
  | deleteGroup : String → Call

/-- Fixed outcomes of the environment for one run.  Fields: presence of
`AUTH0_CLIENT_ID` / `AUTH0_CLIENT_SECRET`, the HTTP statuses of the health
check, the group-creation POST, the `oldId` PATCH and the DELETE, and the id
the creation response carries (`resp.data.id`). -/
structure Env where
  hasClientId : Bool
  hasClientSecret : Bool
  healthStatus : Nat
  createStatus : Nat
  createdId : String
  patchStatus : Nat
  deleteStatus : Nat

/-- The `throw` sites of `main` and of the helpers it calls. -/
inductive ScriptError where
  | missingClientId : ScriptError
  | missingClientSecret : ScriptError
  | healthFailed : ScriptError
  | createFailed : ScriptError
  | patchFailed : String → ScriptError
  | addFailed : AddMembersError → ScriptError
  | deleteFailed : String → ScriptError

/-- The control flow of `main`: config checks, health check, group creation
(POST then PATCH), then the `try { addMembers } finally { deleteTestGroup }`
block.  In the `finally`, a failing delete replaces the pending outcome, as a
throw from a `finally` block does in JS. -/
def mainRun (env : Env) (respond : Nat → ChunkResponse) (members : List α) :
    Except ScriptError Unit × List Call :=
  if env.hasClientId = false then (.error .missingClientId, [])
  else if env.hasClientSecret = false then (.error .missingClientSecret, [])
  else if env.healthStatus ≠ 200 then (.error .healthFailed, [.healthCheck])
  else if env.createStatus ≠ 200 then (.error .createFailed, [.healthCheck, .createGroup])
  else if env.patchStatus ≠ 200 then
    (.error (.patchFailed env.createdId),
      [.healthCheck, .createGroup, .patchGroup env.createdId])
  else
    match (addMembers respond members).1 with
    | .error e =>
      if env.deleteStatus ≠ 200 then
        (.error (.deleteFailed env.createdId),
          [.healthCheck, .createGroup, .patchGroup env.createdId,
            .addMembersCall env.createdId, .deleteGroup env.createdId])
      else
        (.error (.addFailed e),
          [.healthCheck, .createGroup, .patchGroup env.createdId,
            .addMembersCall env.createdId, .deleteGroup env.createdId])
    | .ok _ =>
      if env.deleteStatus ≠ 200 then
        (.error (.deleteFailed env.createdId),
          [.healthCheck, .createGroup, .patchGroup env.createdId,
            .addMembersCall env.createdId, .deleteGroup env.createdId])
      else
        (.ok (),
          [.healthCheck, .createGroup, .patchGroup env.createdId,
            .addMembersCall env.createdId, .deleteGroup env.createdId])

/-- Does a trace contain the group-creation POST? -/
def callsCreate (calls : List Call) : Bool :=
  calls.any fun c =>
    match c with
    | .createGroup => true
    | _ => false

/-- Does a trace contain a `deleteTestGroup` invocation (on any group id)? -/
def callsDelete (calls : List Call) : Bool :=
  calls.any fun c =>
    match c with
    | .deleteGroup _ => true
    | _ => false

/-!
## Lemmas
-/

/-- Every page request the loop issues asks for at most 100 records: the
`diff ≤ 100` branch requests `diff`, the other branch requests exactly 100. -/
lemma getNLoop_perPage_le (fetch : Nat → Nat → List α) (n : Nat) :
    ∀ (fuel page : Nat) (members : List α) (pr : Nat × Nat),
      pr ∈ (getNLoop fetch n fuel page members).2 → pr.2 ≤ 100 := by
  intro fuel
  induction fuel with
  | zero => intro page members pr hpr; simp [getNLoop] at hpr
  | succ fuel ih =>
    intro page members pr hpr
    by_cases hc : members.length < n
    · by_cases hd : n - members.length ≤ 100
      · simp [getNLoop, hc, hd] at hpr
        rcases hpr with hpr | hpr
        · subst hpr; exact hd
        · exact ih page (members ++ fetch page (n - members.length)) pr hpr
      · simp [getNLoop, hc, hd] at hpr
        rcases hpr with hpr | hpr
        · subst hpr; exact le_refl 100
        · exact ih (page + 1) (members ++ fetch page 100) pr hpr
    · simp [getNLoop, hc] at hpr

/-- If every fetch returns exactly the requested number of records, the loop
returns a list of exactly `n` records, provided fuel covers the needed
iterations (`(n - members.length + 99)/100` page requests plus the final
loop-condition check). -/
lemma getNLoop_exact (fetch : Nat → Nat → List α) (n : Nat)
    (hf : ∀ p s, (fetch p s).length = s) :
    ∀ (fuel page : Nat) (members : List α),
      members.length ≤ n →
      (n - members.length + 99) / 100 + 1 ≤ fuel →
      ∃ ms, (getNLoop fetch n fuel page members).1 = some ms ∧ ms.length = n := by
  intro fuel
  induction fuel with
  | zero => intro page members _ hb; omega
  | succ fuel ih =>
    intro page members hle hb
    by_cases hc : members.length < n
    · by_cases hd : n - members.length ≤ 100
      · have hlen : (members ++ fetch page (n - members.length)).length = n := by
          simp [hf]; omega
        have := ih page (members ++ fetch page (n - members.length))
          (le_of_eq hlen) (by rw [hlen]; omega)
        simpa [getNLoop, hc, hd] using this
      · have hlen : (members ++ fetch page 100).length = members.length + 100 := by
          simp [hf]
        have := ih (page + 1) (members ++ fetch page 100)
          (by rw [hlen]; omega) (by rw [hlen]; omega)
        simpa [getNLoop, hc, hd] using this
    · refine ⟨members, by simp [getNLoop, hc], ?_⟩
      omega

/-- If every (nonempty-size) fetch returns at least one record, each loop
iteration strictly increases `members.length`, so fuel `n - members.length + 1`
suffices for the loop to finish. -/
lemma getNLoop_terminates (fetch : Nat → Nat → List α) (n : Nat)
    (hf : ∀ p s, 1 ≤ s → fetch p s ≠ []) :
    ∀ (fuel page : Nat) (members : List α),
      n - members.length < fuel →
      ∃ ms, (getNLoop fetch n fuel page members).1 = some ms := by
  intro fuel
  induction fuel with
  | zero => intro page members hb; omega
  | succ fuel ih =>
    intro page members hb
    by_cases hc : members.length < n
    · by_cases hd : n - members.length ≤ 100
      · have hne : fetch page (n - members.length) ≠ [] := hf _ _ (by omega)
        have hpos : 1 ≤ (fetch page (n - members.length)).length :=
          List.length_pos.mpr hne
        have := ih page (members ++ fetch page (n - members.length)) (by simp; omega)
        simpa [getNLoop, hc, hd] using this
      · have hne : fetch page 100 ≠ [] := hf _ _ (by omega)
        have hpos : 1 ≤ (fetch page 100).length := List.length_pos.mpr hne
        have := ih (page + 1) (members ++ fetch page 100) (by simp; omega)
        simpa [getNLoop, hc, hd] using this
    · exact ⟨members, by simp [getNLoop, hc]⟩

/-- With an oracle that always returns an empty page, the accumulator never
grows, so the loop condition `members.length < n` never becomes false: for
every fuel the loop is still running (the JS loop never terminates). -/
lemma getNLoop_empty_fetch (n : Nat) :
    ∀ (fuel page : Nat) (members : List α),
      members.length < n →
      (getNLoop (fun _ _ => []) n fuel page members).1 = none := by
  intro fuel
  induction fuel with
  | zero => intro page members _; simp [getNLoop]
  | succ fuel ih =>
    intro page members hc
    by_cases hd : n - members.length ≤ 100
    · simpa [getNLoop, hc, hd] using ih page members hc
    · simpa [getNLoop, hc, hd] using ih (page + 1) members hc

lemma respOk_split {r : ChunkResponse} (h : respOk r = true) :
    r.status = 200 ∧ r.elapsed ≤ 30000 ∧ r.members.any isFailed = false := by
  rw [respOk, Bool.and_eq_true, Bool.and_eq_true] at h
  refine ⟨by simpa using h.1.1, by simpa using h.1.2, ?_⟩
  have hn := h.2
  cases hv : r.members.any isFailed with
  | false => rfl
  | true => rw [hv] at hn; simp at hn

lemma respOk_of {r : ChunkResponse} (h1 : r.status = 200) (h2 : r.elapsed ≤ 30000)
    (h3 : r.members.any isFailed = false) : respOk r = true := by
  simp [respOk, h1, h2, h3]

lemma respsConcat_zero (respond : Nat → ChunkResponse) (k : Nat) :
    respsConcat respond k 0 = [] := rfl

lemma respsConcat_succ (respond : Nat → ChunkResponse) (k m : Nat) :
    respsConcat respond k (m + 1) = (respond k).members ++ respsConcat respond (k + 1) m := rfl

/-- Unfolding equation for one iteration of the chunk loop. -/
lemma runChunks_cons (respond : Nat → ChunkResponse) (c : List α) (rest : List (List α))
    (k : Nat) (acc : List MemberStatus) :
    runChunks respond (c :: rest) k acc =
      if (respond k).status ≠ 200 then
        (.error (.badStatus (respond k).status), 1, acc)
      else if 30000 < (respond k).elapsed then
        (.error (.timeLimit (respond k).elapsed), 1, acc)
      else if (respond k).members.any isFailed then
        (.error (.someFailed ((respond k).members.filter isFailed)), 1, acc)
      else
        ((runChunks respond rest (k + 1) (acc ++ (respond k).members)).1,
         (runChunks respond rest (k + 1) (acc ++ (respond k).members)).2.1 + 1,
         (runChunks respond rest (k + 1) (acc ++ (respond k).members)).2.2) := rfl

/-- A response that passes all three checks lets the iteration fall through to
the recursive call. -/
lemma runChunks_cons_ok (respond : Nat → ChunkResponse) (c : List α) (rest : List (List α))
    (k : Nat) (acc : List MemberStatus) (h1 : (respond k).status = 200)
    (h2 : (respond k).elapsed ≤ 30000) (h3 : (respond k).members.any isFailed = false) :
    runChunks respond (c :: rest) k acc =
      ((runChunks respond rest (k + 1) (acc ++ (respond k).members)).1,
       (runChunks respond rest (k + 1) (acc ++ (respond k).members)).2.1 + 1,
       (runChunks respond rest (k + 1) (acc ++ (respond k).members)).2.2) := by
  rw [runChunks_cons, if_neg (not_not_intro h1), if_neg (Nat.not_lt.mpr h2),
    if_neg (by rw [h3]; exact Bool.false_ne_true)]

lemma errorFor_badStatus {r : ChunkResponse} (h1 : r.status ≠ 200) :
    errorFor r = .badStatus r.status := by
  simp only [errorFor]; rw [if_pos h1]

lemma errorFor_timeLimit {r : ChunkResponse} (h1 : r.status = 200) (h2 : 30000 < r.elapsed) :
    errorFor r = .timeLimit r.elapsed := by
  simp only [errorFor]; rw [if_neg (not_not_intro h1), if_pos h2]

lemma errorFor_someFailed {r : ChunkResponse} (h1 : r.status = 200)
    (h2 : ¬30000 < r.elapsed) :
    errorFor r = .someFailed (r.members.filter isFailed) := by
  simp only [errorFor]; rw [if_neg (not_not_intro h1), if_neg h2]

/-- A response that fails a check makes the iteration throw the matching error,
leaving `result` untouched. -/
lemma runChunks_cons_bad (respond : Nat → ChunkResponse) (c : List α) (rest : List (List α))
    (k : Nat) (acc : List MemberStatus) (hbad : respOk (respond k) = false) :
    runChunks respond (c :: rest) k acc = (.error (errorFor (respond k)), 1, acc) := by
  by_cases h1 : (respond k).status = 200
  · by_cases h2 : 30000 < (respond k).elapsed
    · rw [runChunks_cons, if_neg (not_not_intro h1), if_pos h2, errorFor_timeLimit h1 h2]
    · by_cases h3 : (respond k).members.any isFailed = true
      · rw [runChunks_cons, if_neg (not_not_intro h1), if_neg h2, if_pos h3,
          errorFor_someFailed h1 h2]
      · have h3' : (respond k).members.any isFailed = false := by
          cases hv : (respond k).members.any isFailed with
          | false => rfl
          | true => exact absurd hv h3
        rw [respOk_of h1 (Nat.not_lt.mp h2) h3'] at hbad
        exact absurd hbad (by simp)
  · rw [runChunks_cons, if_pos h1, errorFor_badStatus h1]

/-- If all responses pass the checks, the loop issues one request per chunk and
returns the accumulator followed by the concatenation of all response members. -/
lemma runChunks_ok (respond : Nat → ChunkResponse) :
    ∀ (cs : List (List α)) (k : Nat) (acc : List MemberStatus),
      (∀ j, j < cs.length → respOk (respond (k + j)) = true) →
      runChunks respond cs k acc =
        (.ok (acc ++ respsConcat respond k cs.length), cs.length,
          acc ++ respsConcat respond k cs.length) := by
  intro cs
  induction cs with
  | nil => intro k acc _; simp [runChunks, respsConcat_zero]
  | cons c rest ih =>
    intro k acc h
    have h0 := h 0 (by simp)
    rw [Nat.add_zero] at h0
    obtain ⟨h1, h2, h3⟩ := respOk_split h0
    have hall : ∀ j, j < rest.length → respOk (respond (k + 1 + j)) = true := by
      intro j hj
      have e : k + 1 + j = k + (j + 1) := by omega
      rw [e]
      exact h (j + 1) (by simp; omega)
    rw [runChunks_cons_ok respond c rest k acc h1 h2 h3,
      ih (k + 1) (acc ++ (respond k).members) hall]
    simp [respsConcat_succ, List.append_assoc]

/-- If responses `k, …, k+m-1` pass the checks and response `k+m` fails one,
the loop throws the corresponding error after issuing `m + 1` requests, with
`result` still holding only the members of the first `m` responses. -/
lemma runChunks_error (respond : Nat → ChunkResponse) :
    ∀ (cs : List (List α)) (m k : Nat) (acc : List MemberStatus),
      m < cs.length →
      (∀ j, j < m → respOk (respond (k + j)) = true) →
      respOk (respond (k + m)) = false →
      runChunks respond cs k acc =
        (.error (errorFor (respond (k + m))), m + 1,
          acc ++ respsConcat respond k m) := by
  intro cs
  induction cs with
  | nil => intro m k acc hm _ _; simp at hm
  | cons c rest ih =>
    intro m k acc hm hprev hbad
    cases m with
    | zero =>
      rw [Nat.add_zero] at hbad
      rw [runChunks_cons_bad respond c rest k acc hbad]
      simp [respsConcat_zero]
    | succ mm =>
      have h0 := hprev 0 (by omega)
      rw [Nat.add_zero] at h0
      obtain ⟨h1, h2, h3⟩ := respOk_split h0
      have e : k + 1 + mm = k + (mm + 1) := by omega
      have hrec := ih mm (k + 1) (acc ++ (respond k).members) (by simpa using hm)
        (by
          intro j hj
          have e' : k + 1 + j = k + (j + 1) := by omega
          rw [e']
          exact hprev (j + 1) (by omega))
        (by rw [e]; exact hbad)
      rw [runChunks_cons_ok respond c rest k acc h1 h2 h3, hrec, e]
      simp [respsConcat_succ, List.append_assoc]

/-- Conversely, if the loop returns `.ok`, every response it saw passed the
checks and the result is the full concatenation. -/
lemma runChunks_ok_inv (respond : Nat → ChunkResponse) :
    ∀ (cs : List (List α)) (k : Nat) (acc res : List MemberStatus),
      (runChunks respond cs k acc).1 = .ok res →
      (∀ j, j < cs.length → respOk (respond (k + j)) = true) ∧
      res = acc ++ respsConcat respond k cs.length := by
  intro cs
  induction cs with
  | nil =>
    intro k acc res h
    simp [runChunks] at h
    simp [respsConcat_zero, h]
  | cons c rest ih =>
    intro k acc res h
    by_cases h1 : (respond k).status = 200
    · by_cases h2 : 30000 < (respond k).elapsed
      · rw [runChunks_cons, if_neg (not_not_intro h1), if_pos h2] at h
        simp at h
      · by_cases h3 : (respond k).members.any isFailed = true
        · rw [runChunks_cons, if_neg (not_not_intro h1), if_neg h2, if_pos h3] at h
          simp at h
        · have h3' : (respond k).members.any isFailed = false := by
            cases hv : (respond k).members.any isFailed with
            | false => rfl
            | true => exact absurd hv h3
          rw [runChunks_cons_ok respond c rest k acc h1 (Nat.not_lt.mp h2) h3'] at h
          obtain ⟨hall, hres⟩ := ih (k + 1) (acc ++ (respond k).members) res h
          constructor
          · intro j hj
            cases j with
            | zero =>
              rw [Nat.add_zero]
              exact respOk_of h1 (Nat.not_lt.mp h2) h3'
            | succ jj =>
              have e : k + (jj + 1) = k + 1 + jj := by omega
              rw [e]
              exact hall jj (by simpa using hj)
          · rw [hres]
            simp [respsConcat_succ, List.append_assoc]
    · rw [runChunks_cons, if_pos h1] at h
      simp at h

/-- Membership in `respsConcat` comes from the members of one of the
responses. -/
lemma respsConcat_mem (respond : Nat → ChunkResponse) :
    ∀ (m k : Nat) (x : MemberStatus),
      x ∈ respsConcat respond k m → ∃ j, j < m ∧ x ∈ (respond (k + j)).members := by
  intro m
  induction m with
  | zero => intro k x hx; simp [respsConcat_zero] at hx
  | succ mm ih =>
    intro k x hx
    rw [respsConcat_succ, List.mem_append] at hx
    rcases hx with hx | hx
    · exact ⟨0, by omega, by rw [Nat.add_zero]; exact hx⟩
    · obtain ⟨j, hj, hmem⟩ := ih (k + 1) x hx
      refine ⟨j + 1, by omega, ?_⟩
      have e : k + (j + 1) = k + 1 + j := by omega
      rw [e]
      exact hmem

/-- With enough fuel (`l.length` suffices), the chunks concatenate back to the
original list: `slice(i, i+100)` pieces cover the list in order, without
overlap or omission. -/
lemma chunksOfGo_flatten :
    ∀ (fuel : Nat) (l : List α), l.length ≤ fuel → (chunksOfGo fuel l).flatten = l := by
  intro fuel
  induction fuel with
  | zero =>
    intro l hl
    cases l with
    | nil => simp [chunksOfGo]
    | cons x xs => simp at hl
  | succ fuel ih =>
    intro l hl
    cases l with
    | nil => simp [chunksOfGo]
    | cons x xs =>
      have hdrop : ((x :: xs).drop 100).length ≤ fuel := by
        simp [List.length_drop] at hl ⊢
        omega
      simp only [chunksOfGo, List.flatten_cons, ih ((x :: xs).drop 100) hdrop]
      exact List.take_append_drop 100 (x :: xs)

/-- With enough fuel, the number of chunks is `⌈l.length / 100⌉`. -/
lemma chunksOfGo_length :
    ∀ (fuel : Nat) (l : List α), l.length ≤ fuel →
      (chunksOfGo fuel l).length = (l.length + 99) / 100 := by
  intro fuel
  induction fuel with
  | zero =>
    intro l hl
    cases l with
    | nil => simp [chunksOfGo]
    | cons x xs => simp at hl
  | succ fuel ih =>
    intro l hl
    cases l with
    | nil => simp [chunksOfGo]
    | cons x xs =>
      have hdrop : ((x :: xs).drop 100).length ≤ fuel := by
        simp [List.length_drop] at hl ⊢
        omega
      have hrec := ih ((x :: xs).drop 100) hdrop
      simp only [chunksOfGo, List.length_cons, hrec, List.length_drop] at *
      omega

/-- With enough fuel, every chunk has at most 100 elements. -/
lemma chunksOfGo_le_100 :
    ∀ (fuel : Nat) (l : List α), l.length ≤ fuel →
      ∀ c ∈ chunksOfGo fuel l, c.length ≤ 100 := by
  intro fuel
  induction fuel with
  | zero =>
    intro l hl c hc
    cases l with
    | nil => simp [chunksOfGo] at hc
    | cons x xs => simp at hl
  | succ fuel ih =>
    intro l hl c hc
    cases l with
    | nil => simp [chunksOfGo] at hc
    | cons x xs =>
      have hdrop : ((x :: xs).drop 100).length ≤ fuel := by
        simp [List.length_drop] at hl ⊢
        omega
      simp only [chunksOfGo, List.mem_cons] at hc
      rcases hc with hc | hc
      · rw [hc]
        exact List.length_take_le 100 (x :: xs)
      · exact ih ((x :: xs).drop 100) hdrop c hc

lemma chunksOf_flatten (l : List α) : (chunksOf l).flatten = l :=
  chunksOfGo_flatten l.length l le_rfl

lemma chunksOf_length (l : List α) : (chunksOf l).length = (l.length + 99) / 100 :=
  chunksOfGo_length l.length l le_rfl

lemma chunksOf_le_100 (l : List α) : ∀ c ∈ chunksOf l, c.length ≤ 100 :=
  chunksOfGo_le_100 l.length l le_rfl

/-!
## Claims
-/

/-- C2: for every requested count n ≥ 1, assuming each directory API page
request returns exactly as many member records as its perPage parameter
requests, getNMembers returns a list of exactly n member identifiers,
including when n is not a multiple of the 100-item page cap (here with any
fuel covering the `⌈n/100⌉` page requests plus the final loop check, so the
exact count holds across page boundaries). -/
theorem getNMembers_returns_exactly_n (fetch : Nat → Nat → List α) (n fuel : Nat)
    (_hn : 1 ≤ n) (hf : ∀ p s, (fetch p s).length = s)
    (hfuel : (n + 99) / 100 + 1 ≤ fuel) :
    ∃ ms, (getNMembers fetch n fuel).1 = some ms ∧ ms.length = n := by
  have h := getNLoop_exact fetch n hf fuel 1 [] (by simp) (by simpa using hfuel)
  simpa [getNMembers] using h

/-- Witness for C2: 150 requested members arrive in a 100-page and a 50-page. -/
theorem getNMembers_returns_exactly_n_w :
    (∀ p s : Nat, ((fun (_ s : Nat) => List.replicate s (0 : Nat)) p s).length = s) ∧
    ∃ ms, (getNMembers (fun (_ s : Nat) => List.replicate s (0 : Nat)) 150 3).1 = some ms ∧
      ms.length = 150 :=
  ⟨fun _ s => by simp,
    getNMembers_returns_exactly_n (fun _ s => List.replicate s 0) 150 3 (by decide)
      (fun _ s => by simp) (by decide)⟩

/-- C8: every page request that getNMembers issues to the directory API has a
perPage parameter of at most 100, including the final partial one. -/
theorem getNMembers_perPage_le_100 (fetch : Nat → Nat → List α) (n fuel : Nat)
    (pr : Nat × Nat) (hpr : pr ∈ (getNMembers fetch n fuel).2) : pr.2 ≤ 100 :=
  getNLoop_perPage_le fetch n fuel 1 [] pr hpr

/-- Witness for C8: the (page 1, perPage 100) request of a 150-member run. -/
theorem getNMembers_perPage_le_100_w :
    ((1, 100) ∈ (getNMembers (fun _ s => List.replicate s (0 : Nat)) 150 3).2) ∧
    ((1, 100) : Nat × Nat).2 ≤ 100 :=
  ⟨by decide,
    getNMembers_perPage_le_100 (fun _ s => List.replicate s (0 : Nat)) 150 3
      (1, 100) (by decide)⟩

/-- C9: getNMembers terminates for every n under the precondition that every
underlying page fetch returns at least one member (fuel `n + 1` suffices since
each iteration strictly increases the accumulated count); without that
precondition — an oracle answering every request with an empty page — the loop
never finishes, for any amount of fuel. -/
theorem getNMembers_terminates_iff_pages_nonempty (α : Type) :
    (∀ (fetch : Nat → Nat → List α), (∀ p s, 1 ≤ s → fetch p s ≠ []) →
      ∀ n fuel, n < fuel → ∃ ms, (getNMembers fetch n fuel).1 = some ms) ∧
    (∀ n fuel, 1 ≤ n → (getNMembers (fun _ _ => ([] : List α)) n fuel).1 = none) := by
  constructor
  · intro fetch hf n fuel hfuel
    have h := getNLoop_terminates fetch n hf fuel 1 [] (by simpa using hfuel)
    simpa [getNMembers] using h
  · intro n fuel hn
    have h := getNLoop_empty_fetch n fuel 1 ([] : List α) (by simpa using hn)
    simpa [getNMembers] using h

/-- Witness for C9: a one-record-per-page oracle finishes a 3-member run, an
empty-page oracle never finishes a 2-member run. -/
theorem getNMembers_terminates_iff_pages_nonempty_w :
    (∃ ms, (getNMembers (fun _ s => List.replicate s (0 : Nat)) 3 5).1 = some ms) ∧
    (getNMembers (fun _ _ => ([] : List Nat)) 2 7).1 = none :=
  ⟨(getNMembers_terminates_iff_pages_nonempty Nat).1 _
      (fun _ s hs => by simp; omega) 3 5 (by decide),
    (getNMembers_terminates_iff_pages_nonempty Nat).2 2 7 (by decide)⟩

/-- C5: for every member list of length M, addMembers splits it into exactly
⌈M/100⌉ chunks, each of at most 100 members, covering the input list in order
without overlap or omission; and (when no response makes the loop throw) it
issues exactly one bulk-add request per chunk. -/
theorem addMembers_chunking (members : List α) (respond : Nat → ChunkResponse) :
    (chunksOf members).length = (members.length + 99) / 100 ∧
    (∀ c ∈ chunksOf members, c.length ≤ 100) ∧
    (chunksOf members).flatten = members ∧
    ((∀ k, respOk (respond k) = true) →
      (addMembers respond members).2.1 = (chunksOf members).length) := by
  refine ⟨chunksOf_length members, chunksOf_le_100 members, chunksOf_flatten members, ?_⟩
  intro hok
  simp only [addMembers]
  rw [runChunks_ok respond (chunksOf members) 0 [] (fun j _ => hok (0 + j))]

/-- Witness for C5: 250 members make 3 chunks and 3 requests. -/
theorem addMembers_chunking_w :
    (chunksOf (List.replicate 250 (0 : Nat))).length =
      ((List.replicate 250 (0 : Nat)).length + 99) / 100 ∧
    (∀ c ∈ chunksOf (List.replicate 250 (0 : Nat)), c.length ≤ 100) ∧
    (chunksOf (List.replicate 250 (0 : Nat))).flatten = List.replicate 250 (0 : Nat) ∧
    (addMembers (fun _ => ⟨200, 0, []⟩) (List.replicate 250 (0 : Nat))).2.1 =
      (chunksOf (List.replicate 250 (0 : Nat))).length := by
  have h := addMembers_chunking (List.replicate 250 (0 : Nat)) (fun _ => ⟨200, 0, []⟩)
  exact ⟨h.1, h.2.1, h.2.2.1, h.2.2.2 (fun _ => rfl)⟩

/-- C3: if the loop reaches chunk k (all earlier responses passed the checks)
and the measured round-trip time of chunk k exceeds 30000 ms (with a 200
status, so the timing check is the one that fires), addMembers raises the
time-limit error and has issued exactly k+1 chunk requests: no subsequent
chunk request is ever issued. -/
theorem addMembers_timeout_aborts (members : List α) (respond : Nat → ChunkResponse)
    (k : Nat) (hk : k < (chunksOf members).length)
    (hprev : ∀ j, j < k → respOk (respond j) = true)
    (hstatus : (respond k).status = 200)
    (htime : 30000 < (respond k).elapsed) :
    (addMembers respond members).1 = .error (.timeLimit (respond k).elapsed) ∧
    (addMembers respond members).2.1 = k + 1 := by
  have hbad : respOk (respond k) = false := by
    simp [respOk, Nat.not_le.mpr htime]
  have herr := runChunks_error respond (chunksOf members) k 0 [] hk
    (fun j hj => by rw [Nat.zero_add]; exact hprev j hj)
    (by rw [Nat.zero_add]; exact hbad)
  simp only [addMembers]
  rw [herr, Nat.zero_add, errorFor_timeLimit hstatus htime]
  exact ⟨rfl, rfl⟩

/-- Witness for C3: with 250 members (3 chunks), a 30001 ms second chunk stops
the run after 2 of the 3 requests. -/
theorem addMembers_timeout_aborts_w :
    1 < (chunksOf (List.replicate 250 (0 : Nat))).length ∧
    (addMembers (fun j => if j = 0 then (⟨200, 5, []⟩ : ChunkResponse) else ⟨200, 30001, []⟩)
        (List.replicate 250 (0 : Nat))).1 = .error (.timeLimit 30001) ∧
    (addMembers (fun j => if j = 0 then (⟨200, 5, []⟩ : ChunkResponse) else ⟨200, 30001, []⟩)
        (List.replicate 250 (0 : Nat))).2.1 = 1 + 1 := by
  refine ⟨by decide, ?_⟩
  exact addMembers_timeout_aborts (List.replicate 250 (0 : Nat)) _ 1 (by decide)
    (by intro j hj; have hj0 : j = 0 := (by omega); subst hj0; decide) rfl (by decide)

/-- C4: if the loop reaches chunk k, its response has a 200 status and is
within the time budget, and its members array contains an entry with status
"failed", addMembers raises an aggregate error listing exactly the entries
with failed status (and only those), and the remaining chunks are not sent
(exactly k+1 requests were issued). -/
theorem addMembers_failed_aggregate (members : List α) (respond : Nat → ChunkResponse)
    (k : Nat) (hk : k < (chunksOf members).length)
    (hprev : ∀ j, j < k → respOk (respond j) = true)
    (hstatus : (respond k).status = 200)
    (htime : (respond k).elapsed ≤ 30000)
    (hfail : (respond k).members.any isFailed = true) :
    (addMembers respond members).1 =
      .error (.someFailed ((respond k).members.filter isFailed)) ∧
    (∀ x : MemberStatus,
      x ∈ (respond k).members.filter isFailed ↔
        x ∈ (respond k).members ∧ isFailed x = true) ∧
    (addMembers respond members).2.1 = k + 1 := by
  have hbad : respOk (respond k) = false := by simp [respOk, hfail]
  have herr := runChunks_error respond (chunksOf members) k 0 [] hk
    (fun j hj => by rw [Nat.zero_add]; exact hprev j hj)
    (by rw [Nat.zero_add]; exact hbad)
  simp only [addMembers]
  rw [herr, Nat.zero_add, errorFor_someFailed hstatus (Nat.not_lt.mpr htime)]
  exact ⟨rfl, fun x => List.mem_filter, rfl⟩

/-- Witness for C4: a first-chunk response with one failed and one ok entry
aborts a 2-chunk run after 1 request with just the failed entry listed. -/
theorem addMembers_failed_aggregate_w :
    0 < (chunksOf (List.replicate 101 (0 : Nat))).length ∧
    (addMembers (fun _ => (⟨200, 5, [⟨"m1", "failed"⟩, ⟨"m2", "ok"⟩]⟩ : ChunkResponse))
        (List.replicate 101 (0 : Nat))).1 =
      .error (.someFailed [⟨"m1", "failed"⟩]) ∧
    (∀ x : MemberStatus,
      x ∈ [(⟨"m1", "failed"⟩ : MemberStatus), ⟨"m2", "ok"⟩].filter isFailed ↔
        x ∈ [(⟨"m1", "failed"⟩ : MemberStatus), ⟨"m2", "ok"⟩] ∧ isFailed x = true) ∧
    (addMembers (fun _ => (⟨200, 5, [⟨"m1", "failed"⟩, ⟨"m2", "ok"⟩]⟩ : ChunkResponse))
        (List.replicate 101 (0 : Nat))).2.1 = 0 + 1 := by
  refine ⟨by decide, ?_⟩
  exact addMembers_failed_aggregate (List.replicate 101 (0 : Nat)) _ 0 (by decide)
    (by intro j hj; omega) rfl (by decide) (by decide)

/-- C7: if the loop reaches chunk k and its response status is not 200,
addMembers raises the bad-status error, aborts the remaining chunk loop
(exactly k+1 requests issued), and the accumulated result variable still holds
only the members of the earlier responses: the failing chunk response members
were never appended. -/
theorem addMembers_non200_aborts (members : List α) (respond : Nat → ChunkResponse)
    (k : Nat) (hk : k < (chunksOf members).length)
    (hprev : ∀ j, j < k → respOk (respond j) = true)
    (hstatus : (respond k).status ≠ 200) :
    (addMembers respond members).1 = .error (.badStatus (respond k).status) ∧
    (addMembers respond members).2.1 = k + 1 ∧
    (addMembers respond members).2.2 = respsConcat respond 0 k := by
  have h0 : ((respond k).status == 200) = false := beq_eq_false_iff_ne.mpr hstatus
  have hbad : respOk (respond k) = false := by simp [respOk, h0]
  have herr := runChunks_error respond (chunksOf members) k 0 [] hk
    (fun j hj => by rw [Nat.zero_add]; exact hprev j hj)
    (by rw [Nat.zero_add]; exact hbad)
  simp only [addMembers]
  rw [herr, Nat.zero_add, errorFor_badStatus hstatus]
  exact ⟨rfl, rfl, by simp⟩

/-- Witness for C7: with 201 members (3 chunks), a 500 status on the second
chunk stops the run after 2 of the 3 requests, and the result variable still
holds only the first response members. -/
theorem addMembers_non200_aborts_w :
    1 < (chunksOf (List.replicate 201 (0 : Nat))).length ∧
    (addMembers
        (fun j => if j = 0 then (⟨200, 5, [⟨"a", "ok"⟩]⟩ : ChunkResponse)
          else ⟨500, 5, [⟨"b", "ok"⟩]⟩)
        (List.replicate 201 (0 : Nat))).1 = .error (.badStatus 500) ∧
    (addMembers
        (fun j => if j = 0 then (⟨200, 5, [⟨"a", "ok"⟩]⟩ : ChunkResponse)
          else ⟨500, 5, [⟨"b", "ok"⟩]⟩)
        (List.replicate 201 (0 : Nat))).2.1 = 1 + 1 ∧
    (addMembers
        (fun j => if j = 0 then (⟨200, 5, [⟨"a", "ok"⟩]⟩ : ChunkResponse)
          else ⟨500, 5, [⟨"b", "ok"⟩]⟩)
        (List.replicate 201 (0 : Nat))).2.2 = [⟨"a", "ok"⟩] := by
  refine ⟨by decide, ?_⟩
  exact addMembers_non200_aborts (List.replicate 201 (0 : Nat)) _ 1 (by decide)
    (by intro j hj; have hj0 : j = 0 := (by omega); subst hj0; decide) (by decide)

/-- C10: whenever addMembers returns normally, its returned list is exactly
the concatenation, in chunk order, of the members arrays of all chunk
responses, and no entry in the returned list has status "failed". -/
theorem addMembers_ok_result (members : List α) (respond : Nat → ChunkResponse)
    (res : List MemberStatus) (h : (addMembers respond members).1 = .ok res) :
    res = respsConcat respond 0 (chunksOf members).length ∧
    ∀ x ∈ res, x.status ≠ "failed" := by
  obtain ⟨hall, hres⟩ := runChunks_ok_inv respond (chunksOf members) 0 [] res
    (by simpa [addMembers] using h)
  have hres' : res = respsConcat respond 0 (chunksOf members).length := by
    simpa using hres
  refine ⟨hres', ?_⟩
  intro x hx
  rw [hres'] at hx
  obtain ⟨j, hj, hmem⟩ := respsConcat_mem respond (chunksOf members).length 0 x hx
  obtain ⟨-, -, h3⟩ := respOk_split (hall j hj)
  have hxf : ¬(isFailed x = true) := (List.any_eq_false.mp h3) x hmem
  have hxf' : (x.status == "failed") = false := by
    cases hv : isFailed x with
    | false => simpa [isFailed] using hv
    | true => exact absurd hv hxf
  exact beq_eq_false_iff_ne.mp hxf'

/-- Witness for C10: a 2-chunk run with all-ok responses returns the two
response member lists concatenated, with no failed entry. -/
theorem addMembers_ok_result_w :
    (addMembers (fun _ => (⟨200, 5, [⟨"a", "ok"⟩]⟩ : ChunkResponse))
        (List.replicate 101 (0 : Nat))).1 = .ok [⟨"a", "ok"⟩, ⟨"a", "ok"⟩] ∧
    ([(⟨"a", "ok"⟩ : MemberStatus), ⟨"a", "ok"⟩] =
        respsConcat (fun _ => (⟨200, 5, [⟨"a", "ok"⟩]⟩ : ChunkResponse)) 0
          (chunksOf (List.replicate 101 (0 : Nat))).length ∧
      ∀ x ∈ [(⟨"a", "ok"⟩ : MemberStatus), ⟨"a", "ok"⟩], x.status ≠ "failed") :=
  ⟨rfl,
    addMembers_ok_result (List.replicate 101 (0 : Nat)) _ [⟨"a", "ok"⟩, ⟨"a", "ok"⟩] rfl⟩

/-- C6: if addMembers throws for any reason after createTestGroup has returned
a group id (config present, health check, creation POST and oldId patch all
succeeded), deleteTestGroup is still invoked on that group id by the finally
block. -/
theorem delete_runs_when_addMembers_throws (env : Env) (respond : Nat → ChunkResponse)
    (members : List α) (e : AddMembersError)
    (h1 : env.hasClientId = true) (h2 : env.hasClientSecret = true)
    (h3 : env.healthStatus = 200) (h4 : env.createStatus = 200)
    (h5 : env.patchStatus = 200)
    (hadd : (addMembers respond members).1 = .error e) :
    Call.deleteGroup env.createdId ∈ (mainRun env respond members).2 := by
  by_cases hd : env.deleteStatus = 200 <;>
    simp [mainRun, h1, h2, h3, h4, h5, hadd, hd]

/-- Witness for C6: a 500 bulk-add response makes addMembers throw, and the
trace still contains the deletion of the created group. -/
theorem delete_runs_when_addMembers_throws_w :
    Call.deleteGroup "g" ∈
      (mainRun ⟨true, true, 200, 200, "g", 200, 200⟩ (fun _ => ⟨500, 0, []⟩)
        ([0] : List Nat)).2 :=
  delete_runs_when_addMembers_throws ⟨true, true, 200, 200, "g", 200, 200⟩
    (fun _ => ⟨500, 0, []⟩) [0] (.badStatus 500) rfl rfl rfl rfl rfl rfl

/-- C1 (counterexample): a run in which the group-creation POST succeeds
(status 200, the create call is in the trace) but the oldId patch fails ends
without any deleteTestGroup invocation — `patchTestGroup` is called inside
`createTestGroup`, before the try/finally block is entered, so the claimed
guarantee does not cover a patch failure. -/
theorem createSucceeds_patchFails_deleteSkipped :
    (⟨true, true, 200, 200, "g", 500, 200⟩ : Env).createStatus = 200 ∧
    callsCreate (mainRun ⟨true, true, 200, 200, "g", 500, 200⟩
      (fun _ => ⟨200, 0, []⟩) ([] : List Nat)).2 = true ∧
    callsDelete (mainRun ⟨true, true, 200, 200, "g", 500, 200⟩
      (fun _ => ⟨200, 0, []⟩) ([] : List Nat)).2 = false := by
  decide

/-- C1 (amended): for every run in which the group-creation POST succeeds AND
the subsequent oldId patch succeeds (so createTestGroup returns the id and the
try/finally is entered), deleteTestGroup is invoked on the created group id
before the script terminates, regardless of any subsequent failure of member
addition or of the deletion call itself. -/
theorem delete_runs_after_create_and_patch (env : Env) (respond : Nat → ChunkResponse)
    (members : List α)
    (h1 : env.hasClientId = true) (h2 : env.hasClientSecret = true)
    (h3 : env.healthStatus = 200) (h4 : env.createStatus = 200)
    (h5 : env.patchStatus = 200) :
    Call.deleteGroup env.createdId ∈ (mainRun env respond members).2 := by
  rcases hadd : (addMembers respond members).1 with e | v <;>
    by_cases hd : env.deleteStatus = 200 <;>
      simp [mainRun, h1, h2, h3, h4, h5, hadd, hd]

/-- Witness for the amended C1: an all-success run deletes the created group. -/
theorem delete_runs_after_create_and_patch_w :
    Call.deleteGroup "g" ∈
      (mainRun ⟨true, true, 200, 200, "g", 200, 200⟩ (fun _ => ⟨200, 0, []⟩)
        ([] : List Nat)).2 :=
  delete_runs_after_create_and_patch ⟨true, true, 200, 200, "g", 200, 200⟩
    (fun _ => ⟨200, 0, []⟩) [] rfl rfl rfl rfl rfl

end PerfTest
